import Mathlib

/-!
Verification of the `kora_lexer` crate: a shallow embedding of
`src/packages/kora_lexer/src/lexer.rs` and `token.rs`, with theorems about
the lexical scanner's behaviour.

Modelling conventions:
* Rust `&str` slices are modelled as `List Char`; Rust's byte-indexed
  slicing `&s[..n]` / `&s[n..]` is modelled by `splitBytes n`, which fails
  (returns `none`) exactly when Rust would panic: when the byte index `n`
  is out of bounds or falls inside a multi-byte UTF-8 character.
* A Rust panic is modelled by `Step.panic`; a normal return of a value `a`
  by `Step.ok a`.
* The Unicode predicates `is_xid_start` / `is_xid_continue` come from the
  `unicode_ident` dependency crate (not repository code); they are embedded
  exactly for all code points below U+0100 (the range exercised by this
  development); code points at or above U+0100 are mapped to `false`, a
  restriction of the full Unicode tables. `char::is_whitespace` (the
  Unicode White_Space property) is embedded exactly and completely.
-/

namespace Kora

/-- Embedding of `TokenKind` from `token.rs`: the closed set of token kinds. -/
inductive TokenKind where
  | Identifier
  | IntegerLiteral
  | FloatLiteral
  | StringLiteral
  | Equal
  | EqualEqual
  | NotEqual
  | Plus
  | Minus
  | Multiply
  | Divide
  | Modulo
  | PlusEqual
  | MinusEqual
  | MultiplyEqual
  | DivideEqual
  | ModuloEqual
  | Not
  | OrOr
  | AndAnd
  | LessThan
  | GreaterThan
  | LessThanEqual
  | GreaterThanEqual
  | And
  | Or
  | Caret
  | LessThanLessThan
  | GreaterThanGreaterThan
  | LeftParenthesis
  | RightParenthesis
  | LeftBracket
  | RightBracket
  | LeftBrace
  | RightBrace
  | Comma
  | Dot
  | Semicolon
  | Colon
  | Def
  | Extend
  | With
  | If
  | Else
  | For
  | Struct
  | Trivia
  | Illegal
deriving DecidableEq, Repr

/-- Embedding of `Token` from `token.rs`: a kind plus the borrowed text. -/
structure Token where
  kind : TokenKind
  text : List Char
deriving DecidableEq, Repr

/-- Result of running a piece of Rust code that can panic:
`panic` models a Rust panic, `ok a` a normal return of `a`. -/
inductive Step (α : Type) where
  | panic : Step α
  | ok : α → Step α
deriving DecidableEq, Repr

/-- UTF-8 byte length of a character list (Rust's `str::len`). -/
def utf8Len : List Char → Nat
  | [] => 0
  | c :: cs => c.utf8Size + utf8Len cs

/-- Rust byte-indexed slicing `(&s[..n], &s[n..])` on a `List Char` view:
`some (l, r)` splits off the first `n` bytes; `none` exactly when Rust
would panic (index out of bounds, or not on a character boundary). -/
def splitBytes : Nat → List Char → Option (List Char × List Char)
  | 0, cs => some ([], cs)
  | _ + 1, [] => none
  | n + 1, c :: cs' =>
    if c.utf8Size ≤ n + 1 then
      match splitBytes (n + 1 - c.utf8Size) cs' with
      | some (l, r) => some (c :: l, r)
      | none => none
    else none

/-- Embedding of Rust `char::is_whitespace`: the Unicode White_Space
property, embedded exactly (the full 25-code-point list). -/
def is_whitespace (c : Char) : Bool :=
  let n := c.toNat
  decide (n = 0x09 ∨ n = 0x0A ∨ n = 0x0B ∨ n = 0x0C ∨ n = 0x0D ∨ n = 0x20 ∨
    n = 0x85 ∨ n = 0xA0 ∨ n = 0x1680 ∨ (0x2000 ≤ n ∧ n ≤ 0x200A) ∨
    n = 0x2028 ∨ n = 0x2029 ∨ n = 0x202F ∨ n = 0x205F ∨ n = 0x3000)

/-- Embedding of `unicode_ident::is_xid_start` (Unicode XID_Start), exact
for all code points below U+0100 (note: the ASCII digits and the
underscore U+005F do NOT have XID_Start); code points ≥ U+0100 are mapped
to `false` (a restriction of the full table, which lives in the
`unicode_ident` dependency, not in this repository). -/
def is_xid_start (c : Char) : Bool :=
  let n := c.toNat
  decide ((0x41 ≤ n ∧ n ≤ 0x5A) ∨ (0x61 ≤ n ∧ n ≤ 0x7A) ∨ n = 0xAA ∨
    n = 0xB5 ∨ n = 0xBA ∨ (0xC0 ≤ n ∧ n ≤ 0xD6) ∨ (0xD8 ≤ n ∧ n ≤ 0xF6) ∨
    (0xF8 ≤ n ∧ n ≤ 0xFF))

/-- Embedding of `unicode_ident::is_xid_continue` (Unicode XID_Continue),
exact for all code points below U+0100 (in particular the ASCII digits,
the underscore U+005F and U+00B7 DO have XID_Continue); code points
≥ U+0100 are mapped to `false` (a restriction of the full table). -/
def is_xid_continue (c : Char) : Bool :=
  let n := c.toNat
  decide ((0x30 ≤ n ∧ n ≤ 0x39) ∨ (0x41 ≤ n ∧ n ≤ 0x5A) ∨ n = 0x5F ∨
    (0x61 ≤ n ∧ n ≤ 0x7A) ∨ n = 0xAA ∨ n = 0xB5 ∨ n = 0xB7 ∨ n = 0xBA ∨
    (0xC0 ≤ n ∧ n ≤ 0xD6) ∨ (0xD8 ≤ n ∧ n ≤ 0xF6) ∨ (0xF8 ≤ n ∧ n ≤ 0xFF))

/-- The whitespace-width loop of `Lexer::consume_whitespace`
(lexer.rs lines 207-217): byte length of the longest whitespace prefix. -/
def whitespaceWidth : List Char → Nat
  | [] => 0
  | c :: cs => if is_whitespace c then c.utf8Size + whitespaceWidth cs else 0

/-- Embedding of `Lexer::consume_whitespace` (lexer.rs lines 206-237),
acting on the remaining source and returning the new remaining source. -/
def consume_whitespace (source : List Char) : Step (Option (Token × List Char)) :=
  if whitespaceWidth source > 0 then
    match splitBytes (whitespaceWidth source) source with
    | some (l, r) => .ok (some (⟨.Trivia, l⟩, r))
    | none => .panic
  else .ok none

/-- Embedding of Rust `str::starts_with("//")` on the char-list view
(`"//"` is ASCII, so the byte prefix test coincides with the first two
characters being `/`). -/
def startsWithComment (source : List Char) : Bool :=
  decide (source.take 2 = ['/', '/'])

/-- The width loop of `Lexer::consume_comment` (lexer.rs lines 249-257):
iterates over ALL characters of the remaining source from the start
(including the two `/` marker characters), adding each character's UTF-8
size, stopping after having added a newline. -/
def commentWidthLoop : List Char → Nat
  | [] => 0
  | c :: cs => c.utf8Size + (if c = '\n' then 0 else commentWidthLoop cs)

/-- Embedding of `Lexer::consume_comment` (lexer.rs lines 240-272):
aborts unless the source starts with `//`; the width starts at 2 and the
loop then re-counts every character from the start of the source, so the
final slice index overshoots the intended comment. -/
def consume_comment (source : List Char) : Step (Option (Token × List Char)) :=
  if startsWithComment source then
    if 2 + commentWidthLoop source > 0 then
      match splitBytes (2 + commentWidthLoop source) source with
      | some (l, r) => .ok (some (⟨.Trivia, l⟩, r))
      | none => .panic
    else .ok none
  else .ok none

/-- Embedding of `Lexer::consume_trivia` (lexer.rs lines 192-203):
whitespace first, then (only if no whitespace matched) a comment. -/
def consume_trivia (source : List Char) : Step (Option (Token × List Char)) :=
  match consume_whitespace source with
  | .panic => .panic
  | .ok (some r) => .ok (some r)
  | .ok none =>
    match consume_comment source with
    | .panic => .panic
    | .ok (some r) => .ok (some r)
    | .ok none => .ok none

/-- The two-character-operator table of `Lexer::consume_two_chars_token`
(lexer.rs lines 88-102), written as a first-character dispatch; it is
exactly the Rust `match` (note: no entry for `('=', '=')`). -/
def two_char_kind (c1 c2 : Char) : Option TokenKind :=
  if c1 = '+' then (if c2 = '=' then some .PlusEqual else none)
  else if c1 = '-' then (if c2 = '=' then some .MinusEqual else none)
  else if c1 = '*' then (if c2 = '=' then some .MultiplyEqual else none)
  else if c1 = '/' then (if c2 = '=' then some .DivideEqual else none)
  else if c1 = '%' then (if c2 = '=' then some .ModuloEqual else none)
  else if c1 = '&' then (if c2 = '&' then some .AndAnd else none)
  else if c1 = '|' then (if c2 = '|' then some .OrOr else none)
  else if c1 = '!' then (if c2 = '=' then some .NotEqual else none)
  else if c1 = '<' then
    (if c2 = '=' then some .LessThanEqual
     else if c2 = '<' then some .LessThanLessThan else none)
  else if c1 = '>' then
    (if c2 = '=' then some .GreaterThanEqual
     else if c2 = '>' then some .GreaterThanGreaterThan else none)
  else none

/-- Embedding of `Lexer::consume_two_chars_token` (lexer.rs lines 83-111):
on a table hit, slices the first two bytes off the remaining source. -/
def consume_two_chars_token (c1 c2 : Char) (source : List Char) :
    Step (Option (Token × List Char)) :=
  match two_char_kind c1 c2 with
  | none => .ok none
  | some k =>
    match splitBytes 2 source with
    | some (l, r) => .ok (some (⟨k, l⟩, r))
    | none => .panic

/-- The one-character-token table of `Lexer::consume_one_char_token`
(lexer.rs lines 115-139), exactly the Rust `match`. -/
def one_char_kind (c : Char) : Option TokenKind :=
  if c = '=' then some .Equal
  else if c = '+' then some .Plus
  else if c = '-' then some .Minus
  else if c = '*' then some .Multiply
  else if c = '/' then some .Divide
  else if c = '%' then some .Modulo
  else if c = '&' then some .And
  else if c = '|' then some .Or
  else if c = '^' then some .Caret
  else if c = '!' then some .Not
  else if c = '<' then some .LessThan
  else if c = '>' then some .GreaterThan
  else if c = '(' then some .LeftParenthesis
  else if c = ')' then some .RightParenthesis
  else if c = '[' then some .LeftBracket
  else if c = ']' then some .RightBracket
  else if c = '\x7B' then some .LeftBrace
  else if c = '\x7D' then some .RightBrace
  else if c = ',' then some .Comma
  else if c = '.' then some .Dot
  else if c = ';' then some .Semicolon
  else if c = ':' then some .Colon
  else none

/-- Embedding of `Lexer::consume_one_char_token` (lexer.rs lines 114-146):
on a table hit, slices the first byte off the remaining source. -/
def consume_one_char_token (c : Char) (source : List Char) :
    Step (Option (Token × List Char)) :=
  match one_char_kind c with
  | none => .ok none
  | some k =>
    match splitBytes 1 source with
    | some (l, r) => .ok (some (⟨k, l⟩, r))
    | none => .panic

/-- The XID_Continue width loop of `Lexer::consume_keyword_or_identifier_token`
(lexer.rs lines 162-167): byte length of the longest XID_Continue prefix. -/
def xidContinueWidth : List Char → Nat
  | [] => 0
  | c :: cs => if is_xid_continue c then c.utf8Size + xidContinueWidth cs else 0

/-- The keyword lookup of `Lexer::consume_keyword_or_identifier_token`
(lexer.rs lines 172-181): exact, case-sensitive match against the fixed
keyword list; everything else is an `Identifier`. -/
def keywordLookup (text : List Char) : TokenKind :=
  if text = "def".toList then .Def
  else if text = "extend".toList then .Extend
  else if text = "with".toList then .With
  else if text = "if".toList then .If
  else if text = "else".toList then .Else
  else if text = "for".toList then .For
  else if text = "struct".toList then .Struct
  else .Identifier

/-- Embedding of `Lexer::consume_keyword_or_identifier_token`
(lexer.rs lines 149-187): fires only when the first character has
XID_Start, extends through XID_Continue characters, then classifies the
text by keyword lookup. -/
def consume_keyword_or_identifier_token : List Char → Step (Option (Token × List Char))
  | [] => .ok none
  | first :: rest =>
    if is_xid_start first then
      match splitBytes (first.utf8Size + xidContinueWidth rest) (first :: rest) with
      | some (l, r) => .ok (some (⟨keywordLookup l, l⟩, r))
      | none => .panic
    else .ok none

/-- Embedding of `Lexer::consume_token` (lexer.rs lines 30-80): trivia,
then two-char operators (only when a second character exists), then
one-char tokens, then keyword-or-identifier, then the one-byte Illegal
fallback. The `source_code.len() == 0` early return and the (unreachable
on nonempty input) `None` arm of `chars.next()` both collapse into the
`[]` case. -/
def consume_token : List Char → Step (Option (Token × List Char))
  | [] => .ok none
  | current :: rest =>
    match consume_trivia (current :: rest) with
    | .panic => .panic
    | .ok (some r) => .ok (some r)
    | .ok none =>
      match (match rest with
             | next :: _ => consume_two_chars_token current next (current :: rest)
             | [] => .ok none) with
      | .panic => .panic
      | .ok (some r) => .ok (some r)
      | .ok none =>
        match consume_one_char_token current (current :: rest) with
        | .panic => .panic
        | .ok (some r) => .ok (some r)
        | .ok none =>
          match consume_keyword_or_identifier_token (current :: rest) with
          | .panic => .panic
          | .ok (some r) => .ok (some r)
          | .ok none =>
            match splitBytes 1 (current :: rest) with
            | some (l, r) => .ok (some (⟨.Illegal, l⟩, r))
            | none => .panic

/-- Fuelled driver for repeated `consume_token` calls (the `Iterator`
implementation, lexer.rs lines 275-280, run to exhaustion). The fuel is
only a termination device: `tokenizeFuel_congr` below shows any fuel
≥ the number of remaining characters gives the same result. -/
def tokenizeFuel : Nat → List Char → Step (List Token)
  | 0, _ => .ok []
  | fuel + 1, source =>
    match consume_token source with
    | .panic => .panic
    | .ok none => .ok []
    | .ok (some (t, rest)) =>
      match tokenizeFuel fuel rest with
      | .panic => .panic
      | .ok ts => .ok (t :: ts)

/-- Collecting the whole token stream: repeated `consume_token` until
exhaustion (`Lexer::new(s).collect()`), or the first panic. -/
def tokenize (source : List Char) : Step (List Token) :=
  tokenizeFuel source.length source

end Kora


namespace Kora

/-- Modelled from the spec: `SyntaxError` lives in the crate's `error`
module, which is not among the provided sources; the spec describes it
only as a placeholder diagnostics type ("reserved for future structured
error reporting (currently unused)"), so it is modelled as a featureless
placeholder value type. -/
structure SyntaxError where
deriving DecidableEq, Repr

/-- Embedding of the `Lexer` struct (lexer.rs lines 8-19): the original
source, the shrinking remaining view, and the (never written) syntax
error collection. -/
structure Lexer where
  original_source_code : List Char
  source_code : List Char
  errors : List SyntaxError
deriving DecidableEq, Repr

/-- Embedding of `Lexer::new` (lexer.rs lines 22-28). -/
def Lexer.new (source : List Char) : Lexer :=
  ⟨source, source, []⟩

/-- Embedding of the stateful `Lexer::consume_token` (lexer.rs lines
30-80): every consumer reads and writes only `self.source_code`, so the
state transition updates that field alone. -/
def Lexer.consume_token_state (lx : Lexer) : Step (Option Token × Lexer) :=
  match consume_token lx.source_code with
  | .panic => .panic
  | .ok none => .ok (none, lx)
  | .ok (some (t, rest)) => .ok (some t, { lx with source_code := rest })

/-- The token component of a stateful step (forgetting the state). -/
def tokenPart : Step (Option Token × Lexer) → Step (Option Token)
  | .panic => .panic
  | .ok (t, _) => .ok t

end Kora

namespace Kora

theorem utf8Len_append (l r : List Char) :
    utf8Len (l ++ r) = utf8Len l + utf8Len r := by
  induction l with
  | nil => simp [utf8Len]
  | cons c l ih => simp [utf8Len, ih]; omega

theorem utf8Len_nil : utf8Len [] = 0 := rfl

theorem utf8Len_pos_of_ne_nil {l : List Char} (h : l ≠ []) : 1 ≤ utf8Len l := by
  cases l with
  | nil => exact absurd rfl h
  | cons c cs =>
    have := Char.utf8Size_pos c
    simp [utf8Len]
    omega

theorem ne_nil_of_utf8Len_pos {l : List Char} (h : 1 ≤ utf8Len l) : l ≠ [] := by
  intro hl
  subst hl
  simp [utf8Len] at h

/-- Soundness of the slicing model: a successful split returns a prefix
of the given byte length and the matching suffix. -/
theorem splitBytes_spec (cs : List Char) : ∀ n l r,
    splitBytes n cs = some (l, r) → l ++ r = cs ∧ utf8Len l = n := by
  induction cs with
  | nil =>
    intro n l r h
    cases n with
    | zero =>
      simp only [splitBytes, Option.some.injEq, Prod.mk.injEq] at h
      obtain ⟨h1, h2⟩ := h
      subst h1; subst h2
      simp [utf8Len]
    | succ m => simp [splitBytes] at h
  | cons c cs ih =>
    intro n l r h
    cases n with
    | zero =>
      simp only [splitBytes, Option.some.injEq, Prod.mk.injEq] at h
      obtain ⟨h1, h2⟩ := h
      subst h1; subst h2
      simp [utf8Len]
    | succ m =>
      simp only [splitBytes] at h
      split at h
      · next hsz =>
        cases hrec : splitBytes (m + 1 - c.utf8Size) cs with
        | none => rw [hrec] at h; simp at h
        | some p =>
          obtain ⟨l', r'⟩ := p
          rw [hrec] at h
          simp only [Option.some.injEq, Prod.mk.injEq] at h
          obtain ⟨h1, h2⟩ := h
          subst h1; subst h2
          obtain ⟨ha, hb⟩ := ih _ _ _ hrec
          refine ⟨by simp [ha], ?_⟩
          simp [utf8Len, hb]
          omega
      · simp at h

/-- Completeness of the slicing model: slicing at a character boundary
within bounds succeeds and returns exactly that prefix and suffix. -/
theorem splitBytes_append_eq : ∀ (l r : List Char),
    splitBytes (utf8Len l) (l ++ r) = some (l, r) := by
  intro l
  induction l with
  | nil => intro r; simp [utf8Len, splitBytes]
  | cons c l ih =>
    intro r
    have hpos := Char.utf8Size_pos c
    have hform : utf8Len (c :: l) = (c.utf8Size + utf8Len l - 1) + 1 := by
      simp [utf8Len]; omega
    rw [hform]
    show splitBytes _ (c :: (l ++ r)) = _
    simp only [splitBytes]
    rw [if_pos (by omega)]
    have harg : c.utf8Size + utf8Len l - 1 + 1 - c.utf8Size = utf8Len l := by omega
    rw [harg, ih r]

/-- Success of `consume_whitespace`: the token is a nonempty prefix of the
remaining source. -/
theorem consume_whitespace_spec {cs r : List Char} {t : Token}
    (h : consume_whitespace cs = .ok (some (t, r))) :
    t.text ++ r = cs ∧ 1 ≤ utf8Len t.text ∧ t.kind = .Trivia := by
  unfold consume_whitespace at h
  split at h
  · next hw =>
    cases hsb : splitBytes (whitespaceWidth cs) cs with
    | none => rw [hsb] at h; simp at h
    | some p =>
      obtain ⟨l, r'⟩ := p
      rw [hsb] at h
      simp only [Step.ok.injEq, Option.some.injEq, Prod.mk.injEq] at h
      obtain ⟨h1, h2⟩ := h
      subst h1; subst h2
      obtain ⟨ha, hb⟩ := splitBytes_spec _ _ _ _ hsb
      refine ⟨ha, ?_, rfl⟩
      show 1 ≤ utf8Len l
      omega
  · simp at h

/-- Success of `consume_comment`: the token is a nonempty prefix of the
remaining source. -/
theorem consume_comment_spec {cs r : List Char} {t : Token}
    (h : consume_comment cs = .ok (some (t, r))) :
    t.text ++ r = cs ∧ 1 ≤ utf8Len t.text ∧ t.kind = .Trivia := by
  unfold consume_comment at h
  split at h
  · next hsw =>
    split at h
    · next hw =>
      cases hsb : splitBytes (2 + commentWidthLoop cs) cs with
      | none => rw [hsb] at h; simp at h
      | some p =>
        obtain ⟨l, r'⟩ := p
        rw [hsb] at h
        simp only [Step.ok.injEq, Option.some.injEq, Prod.mk.injEq] at h
        obtain ⟨h1, h2⟩ := h
        subst h1; subst h2
        obtain ⟨ha, hb⟩ := splitBytes_spec _ _ _ _ hsb
        refine ⟨ha, ?_, rfl⟩
        show 1 ≤ utf8Len l
        omega
    · simp at h
  · simp at h

/-- Success of `consume_trivia`: the token is a nonempty prefix of the
remaining source and is a Trivia token. -/
theorem consume_trivia_spec {cs r : List Char} {t : Token}
    (h : consume_trivia cs = .ok (some (t, r))) :
    t.text ++ r = cs ∧ 1 ≤ utf8Len t.text ∧ t.kind = .Trivia := by
  unfold consume_trivia at h
  cases hw : consume_whitespace cs with
  | panic => rw [hw] at h; simp at h
  | ok o =>
    rw [hw] at h
    cases o with
    | some p =>
      simp only [Step.ok.injEq, Option.some.injEq] at h
      obtain ⟨t', r'⟩ := p
      cases h
      exact consume_whitespace_spec hw
    | none =>
      cases hc : consume_comment cs with
      | panic => rw [hc] at h; simp at h
      | ok o' =>
        rw [hc] at h
        cases o' with
        | some p =>
          simp only [Step.ok.injEq, Option.some.injEq] at h
          obtain ⟨t', r'⟩ := p
          cases h
          exact consume_comment_spec hc
        | none => simp at h

/-- Success of `consume_two_chars_token`: the token is a nonempty prefix. -/
theorem consume_two_chars_token_spec {c1 c2 : Char} {cs r : List Char} {t : Token}
    (h : consume_two_chars_token c1 c2 cs = .ok (some (t, r))) :
    t.text ++ r = cs ∧ 1 ≤ utf8Len t.text := by
  unfold consume_two_chars_token at h
  cases hk : two_char_kind c1 c2 with
  | none => rw [hk] at h; simp at h
  | some k =>
    rw [hk] at h
    cases hsb : splitBytes 2 cs with
    | none => rw [hsb] at h; simp at h
    | some p =>
      obtain ⟨l, r'⟩ := p
      rw [hsb] at h
      simp only [Step.ok.injEq, Option.some.injEq, Prod.mk.injEq] at h
      obtain ⟨h1, h2⟩ := h
      subst h1; subst h2
      obtain ⟨ha, hb⟩ := splitBytes_spec _ _ _ _ hsb
      refine ⟨ha, ?_⟩
      show 1 ≤ utf8Len l
      omega

/-- Success of `consume_one_char_token`: the token is a nonempty prefix. -/
theorem consume_one_char_token_spec {c : Char} {cs r : List Char} {t : Token}
    (h : consume_one_char_token c cs = .ok (some (t, r))) :
    t.text ++ r = cs ∧ 1 ≤ utf8Len t.text := by
  unfold consume_one_char_token at h
  cases hk : one_char_kind c with
  | none => rw [hk] at h; simp at h
  | some k =>
    rw [hk] at h
    cases hsb : splitBytes 1 cs with
    | none => rw [hsb] at h; simp at h
    | some p =>
      obtain ⟨l, r'⟩ := p
      rw [hsb] at h
      simp only [Step.ok.injEq, Option.some.injEq, Prod.mk.injEq] at h
      obtain ⟨h1, h2⟩ := h
      subst h1; subst h2
      obtain ⟨ha, hb⟩ := splitBytes_spec _ _ _ _ hsb
      refine ⟨ha, ?_⟩
      show 1 ≤ utf8Len l
      omega

/-- Success of `consume_keyword_or_identifier_token`: the token is a nonempty
prefix of the remaining source. -/
theorem consume_keyword_or_identifier_token_spec {cs r : List Char} {t : Token}
    (h : consume_keyword_or_identifier_token cs = .ok (some (t, r))) :
    t.text ++ r = cs ∧ 1 ≤ utf8Len t.text := by
  cases cs with
  | nil => simp [consume_keyword_or_identifier_token] at h
  | cons first rest =>
    simp only [consume_keyword_or_identifier_token] at h
    split at h
    · next hx =>
      cases hsb : splitBytes (first.utf8Size + xidContinueWidth rest) (first :: rest) with
      | none => rw [hsb] at h; simp at h
      | some p =>
        obtain ⟨l, r'⟩ := p
        rw [hsb] at h
        simp only [Step.ok.injEq, Option.some.injEq, Prod.mk.injEq] at h
        obtain ⟨h1, h2⟩ := h
        subst h1; subst h2
        obtain ⟨ha, hb⟩ := splitBytes_spec _ _ _ _ hsb
        have := Char.utf8Size_pos first
        refine ⟨ha, ?_⟩
        show 1 ≤ utf8Len l
        omega
    · simp at h

/-- Success of `consume_token`: the returned token is a nonempty prefix of
the remaining source and the rest is returned unchanged. -/
theorem consume_token_spec {cs r : List Char} {t : Token}
    (h : consume_token cs = .ok (some (t, r))) :
    t.text ++ r = cs ∧ 1 ≤ utf8Len t.text := by
  cases cs with
  | nil => simp [consume_token] at h
  | cons current rest =>
    simp only [consume_token] at h
    cases htr : consume_trivia (current :: rest) with
    | panic => rw [htr] at h; simp at h
    | ok o =>
      rw [htr] at h
      cases o with
      | some p =>
        obtain ⟨t', r'⟩ := p
        simp only [Step.ok.injEq, Option.some.injEq, Prod.mk.injEq] at h
        obtain ⟨h1, h2⟩ := h
        subst h1; subst h2
        obtain ⟨ha, hb, _⟩ := consume_trivia_spec htr
        exact ⟨ha, hb⟩
      | none =>
        cases rest with
        | nil =>
          cases hoc : consume_one_char_token current [current] with
          | panic => rw [hoc] at h; simp at h
          | ok o2 =>
            rw [hoc] at h
            cases o2 with
            | some p =>
              obtain ⟨t', r'⟩ := p
              simp only [Step.ok.injEq, Option.some.injEq, Prod.mk.injEq] at h
              obtain ⟨h1, h2⟩ := h
              subst h1; subst h2
              exact consume_one_char_token_spec hoc
            | none =>
              cases hkw : consume_keyword_or_identifier_token [current] with
              | panic => rw [hkw] at h; simp at h
              | ok o3 =>
                rw [hkw] at h
                cases o3 with
                | some p =>
                  obtain ⟨t', r'⟩ := p
                  simp only [Step.ok.injEq, Option.some.injEq, Prod.mk.injEq] at h
                  obtain ⟨h1, h2⟩ := h
                  subst h1; subst h2
                  exact consume_keyword_or_identifier_token_spec hkw
                | none =>
                  cases hsb : splitBytes 1 [current] with
                  | none => rw [hsb] at h; simp at h
                  | some p =>
                    obtain ⟨l, r'⟩ := p
                    rw [hsb] at h
                    simp only [Step.ok.injEq, Option.some.injEq, Prod.mk.injEq] at h
                    obtain ⟨h1, h2⟩ := h
                    subst h1; subst h2
                    obtain ⟨ha, hb⟩ := splitBytes_spec _ _ _ _ hsb
                    refine ⟨ha, ?_⟩
                    show 1 ≤ utf8Len l
                    omega
        | cons next rest' =>
          dsimp only [] at h
          cases htc : consume_two_chars_token current next (current :: next :: rest') with
          | panic => rw [htc] at h; simp at h
          | ok o1 =>
            rw [htc] at h
            cases o1 with
            | some p =>
              obtain ⟨t', r'⟩ := p
              simp only [Step.ok.injEq, Option.some.injEq, Prod.mk.injEq] at h
              obtain ⟨h1, h2⟩ := h
              subst h1; subst h2
              exact consume_two_chars_token_spec htc
            | none =>
              cases hoc : consume_one_char_token current (current :: next :: rest') with
              | panic => rw [hoc] at h; simp at h
              | ok o2 =>
                rw [hoc] at h
                cases o2 with
                | some p =>
                  obtain ⟨t', r'⟩ := p
                  simp only [Step.ok.injEq, Option.some.injEq, Prod.mk.injEq] at h
                  obtain ⟨h1, h2⟩ := h
                  subst h1; subst h2
                  exact consume_one_char_token_spec hoc
                | none =>
                  cases hkw : consume_keyword_or_identifier_token (current :: next :: rest') with
                  | panic => rw [hkw] at h; simp at h
                  | ok o3 =>
                    rw [hkw] at h
                    cases o3 with
                    | some p =>
                      obtain ⟨t', r'⟩ := p
                      simp only [Step.ok.injEq, Option.some.injEq, Prod.mk.injEq] at h
                      obtain ⟨h1, h2⟩ := h
                      subst h1; subst h2
                      exact consume_keyword_or_identifier_token_spec hkw
                    | none =>
                      cases hsb : splitBytes 1 (current :: next :: rest') with
                      | none => rw [hsb] at h; simp at h
                      | some p =>
                        obtain ⟨l, r'⟩ := p
                        rw [hsb] at h
                        simp only [Step.ok.injEq, Option.some.injEq, Prod.mk.injEq] at h
                        obtain ⟨h1, h2⟩ := h
                        subst h1; subst h2
                        obtain ⟨ha, hb⟩ := splitBytes_spec _ _ _ _ hsb
                        refine ⟨ha, ?_⟩
                        show 1 ≤ utf8Len l
                        omega

/-- A successful `consume_token` strictly shrinks the remaining view,
both in bytes and in characters. -/
theorem consume_token_progress {cs r : List Char} {t : Token}
    (h : consume_token cs = .ok (some (t, r))) :
    utf8Len r < utf8Len cs ∧ r.length < cs.length := by
  obtain ⟨ha, hb⟩ := consume_token_spec h
  have hne : t.text ≠ [] := ne_nil_of_utf8Len_pos hb
  have hlp : 0 < t.text.length := List.length_pos.mpr hne
  constructor
  · rw [← ha, utf8Len_append]
    omega
  · rw [← ha, List.length_append]
    omega

/-- The fuel argument of `tokenizeFuel` is irrelevant once it is at least
the number of remaining characters (each successful production consumes
at least one character). -/
theorem tokenizeFuel_congr : ∀ (fuel : Nat) (cs : List Char), cs.length ≤ fuel →
    tokenizeFuel fuel cs = tokenizeFuel cs.length cs := by
  intro fuel
  induction fuel using Nat.strong_induction_on with
  | _ fuel ih =>
    intro cs hlen
    cases fuel with
    | zero =>
      have hnil : cs = [] := List.length_eq_zero.mp (Nat.le_zero.mp hlen)
      subst hnil
      rfl
    | succ fuel =>
      cases cs with
      | nil =>
        simp [tokenizeFuel, consume_token]
      | cons c cs' =>
        have hle : cs'.length ≤ fuel := by simpa using hlen
        show tokenizeFuel (fuel + 1) (c :: cs') = tokenizeFuel (cs'.length + 1) (c :: cs')
        simp only [tokenizeFuel]
        cases hct : consume_token (c :: cs') with
        | panic => rfl
        | ok o =>
          cases o with
          | none => rfl
          | some p =>
            obtain ⟨t, rest⟩ := p
            have hrest : rest.length < (c :: cs').length := (consume_token_progress hct).2
            have hrest' : rest.length ≤ cs'.length := by
              simp only [List.length_cons] at hrest
              omega
            have e1 : tokenizeFuel fuel rest = tokenizeFuel rest.length rest :=
              ih fuel (Nat.lt_succ_self fuel) rest (le_trans hrest' hle)
            have e2 : tokenizeFuel cs'.length rest = tokenizeFuel rest.length rest :=
              ih cs'.length (Nat.lt_succ_of_le hle) rest hrest'
            dsimp only []
            rw [e1, e2]

/-- A successful complete scan produces at most one token per input byte. -/
theorem tokenizeFuel_count : ∀ (fuel : Nat) (cs : List Char) (ts : List Token),
    tokenizeFuel fuel cs = .ok ts → ts.length ≤ utf8Len cs := by
  intro fuel
  induction fuel with
  | zero =>
    intro cs ts h
    simp only [tokenizeFuel, Step.ok.injEq] at h
    subst h
    simp
  | succ fuel ih =>
    intro cs ts h
    simp only [tokenizeFuel] at h
    cases hct : consume_token cs with
    | panic => rw [hct] at h; simp at h
    | ok o =>
      rw [hct] at h
      cases o with
      | none =>
        simp only [Step.ok.injEq] at h
        subst h
        simp
      | some p =>
        obtain ⟨t, rest⟩ := p
        dsimp only [] at h
        cases hrec : tokenizeFuel fuel rest with
        | panic => rw [hrec] at h; simp at h
        | ok ts' =>
          rw [hrec] at h
          simp only [Step.ok.injEq] at h
          subst h
          have h1 := ih rest ts' hrec
          have h2 := (consume_token_progress hct).1
          simp only [List.length_cons]
          omega

/-- The XID_Continue width loop computes the byte length of the longest
XID_Continue prefix. -/
theorem xidContinueWidth_eq (cs : List Char) :
    xidContinueWidth cs = utf8Len (cs.takeWhile is_xid_continue) := by
  induction cs with
  | nil => rfl
  | cons c cs ih =>
    by_cases hc : is_xid_continue c
    · simp [xidContinueWidth, List.takeWhile_cons, hc, utf8Len, ih]
    · simp [xidContinueWidth, List.takeWhile_cons, hc, utf8Len]

/-- Closed-form behaviour of the keyword-or-identifier rule on a source
whose first character has XID_Start: the token text is the first character
followed by the longest XID_Continue run, classified by keyword lookup. -/
theorem consume_keyword_or_identifier_eq (first : Char) (rest : List Char)
    (h : is_xid_start first = true) :
    consume_keyword_or_identifier_token (first :: rest) =
      .ok (some (⟨keywordLookup (first :: rest.takeWhile is_xid_continue),
                  first :: rest.takeWhile is_xid_continue⟩,
                 rest.dropWhile is_xid_continue)) := by
  have hsplit : splitBytes (first.utf8Size + xidContinueWidth rest) (first :: rest) =
      some (first :: rest.takeWhile is_xid_continue, rest.dropWhile is_xid_continue) := by
    have hdecomp : first :: rest =
        (first :: rest.takeWhile is_xid_continue) ++ rest.dropWhile is_xid_continue := by
      simp [List.takeWhile_append_dropWhile]
    have hlen : first.utf8Size + xidContinueWidth rest =
        utf8Len (first :: rest.takeWhile is_xid_continue) := by
      simp [utf8Len, xidContinueWidth_eq]
    rw [hlen]
    conv =>
      lhs
      rw [hdecomp]
    exact splitBytes_append_eq _ _
  simp only [consume_keyword_or_identifier_token, h, if_true]
  rw [hsplit]

/-- C1: the losslessness invariant ("for all inputs S, concatenating the
text of every token produced from S equals S exactly") fails: on the
input `"// hi\n"` the scan panics inside `consume_comment` (slice index
8 on a 6-byte buffer), so no token stream is produced at all. -/
theorem C1_losslessness_fails_on_comment :
    tokenize ("// hi\n".toList) = Step.panic := by decide

/-- C2: the claim that `consume_token` never raises a fatal failure is
false: it panics on an input starting a comment (`"//"`, slice overrun)
and on a multi-byte character matching no rule (`'¬'`, U+00AC: the
one-byte Illegal fallback slices in the middle of its two-byte UTF-8
encoding). -/
theorem C2_consume_token_panics :
    consume_token ("//".toList) = Step.panic ∧
    consume_token ['¬'] = Step.panic := by
  constructor <;> decide

/-- C3: the claimed comment behaviour fails: on the spec's own example
`"// hi\n"` the comment consumer panics (its width loop re-counts the
`//` marker, computing slice index 8 on a 6-byte buffer) instead of
producing the Trivia token `"// hi\n"`; and where it does not panic it
consumes two bytes past the newline (shown on `"//\nabcd"`). -/
theorem C3_comment_rule_broken :
    consume_comment ("// hi\n".toList) = Step.panic ∧
    consume_comment ("//\nabcd".toList) =
      Step.ok (some (⟨TokenKind.Trivia, "//\nab".toList⟩, "cd".toList)) := by
  constructor <;> decide

/-- C4: the two-character-operator table does NOT contain `==` (the only
§3 two-character operator missing from the `match` in
`consume_two_chars_token`), so `"=="` is scanned as two one-character
Equal tokens instead of one EqualEqual token. -/
theorem C4_equal_equal_missing :
    two_char_kind '=' '=' = none ∧
    tokenize ("==".toList) =
      Step.ok [⟨TokenKind.Equal, ['=']⟩, ⟨TokenKind.Equal, ['=']⟩] := by
  constructor <;> decide

/-- C5 counterexample: scanning `"x += 1"` does NOT end with an
Identifier token `"1"` — the digit `1` lacks XID_Start, so no rule
matches it. -/
theorem C5_counterexample :
    tokenize ("x += 1".toList) ≠
      Step.ok [⟨TokenKind.Identifier, ['x']⟩, ⟨TokenKind.Trivia, [' ']⟩,
        ⟨TokenKind.PlusEqual, ['+', '=']⟩, ⟨TokenKind.Trivia, [' ']⟩,
        ⟨TokenKind.Identifier, ['1']⟩] := by decide

/-- C5 amended: scanning `"x += 1"` produces
`[Identifier "x", Trivia " ", PlusEqual "+=", Trivia " ", Illegal "1"]` —
the trailing digit is emitted as a one-byte Illegal token. -/
theorem C5_amended_trailing_digit_illegal :
    tokenize ("x += 1".toList) =
      Step.ok [⟨TokenKind.Identifier, ['x']⟩, ⟨TokenKind.Trivia, [' ']⟩,
        ⟨TokenKind.PlusEqual, ['+', '=']⟩, ⟨TokenKind.Trivia, [' ']⟩,
        ⟨TokenKind.Illegal, ['1']⟩] := by decide

/-- C8: on `"  //x\n"` the scanner does emit the maximal whitespace run
`"  "` as its own Trivia token (whitespace and comment are never merged),
but the following comment then panics instead of becoming the second
Trivia token `"//x\n"`. -/
theorem C8_whitespace_then_comment :
    consume_token ("  //x\n".toList) =
      Step.ok (some (⟨TokenKind.Trivia, [' ', ' ']⟩, "//x\n".toList)) ∧
    consume_token ("//x\n".toList) = Step.panic := by
  constructor <;> decide

/-- C6: for every non-empty remaining view, a successful `consume_token`
returns a token of text length ≥ 1 byte and strictly shrinks the
remaining view, and a successful complete scan of a buffer of byte
length N produces at most N tokens. -/
theorem C6_progress_and_termination :
    (∀ (cs r : List Char) (t : Token), consume_token cs = Step.ok (some (t, r)) →
      1 ≤ utf8Len t.text ∧ utf8Len r < utf8Len cs ∧ r.length < cs.length) ∧
    (∀ (cs : List Char) (ts : List Token), tokenize cs = Step.ok ts →
      ts.length ≤ utf8Len cs) := by
  constructor
  · intro cs r t h
    obtain ⟨_, hb⟩ := consume_token_spec h
    obtain ⟨h1, h2⟩ := consume_token_progress h
    exact ⟨hb, h1, h2⟩
  · intro cs ts h
    exact tokenizeFuel_count cs.length cs ts h

/-- Witness for C6 at the concrete input `"a"`. -/
theorem C6_progress_and_termination_witness :
    (1 ≤ utf8Len (Token.mk TokenKind.Identifier ['a']).text ∧
      utf8Len ([] : List Char) < utf8Len ['a'] ∧
      ([] : List Char).length < ['a'].length) ∧
    ([Token.mk TokenKind.Identifier ['a']].length ≤ utf8Len ['a']) :=
  ⟨C6_progress_and_termination.1 ['a'] [] ⟨TokenKind.Identifier, ['a']⟩ (by decide),
   C6_progress_and_termination.2 ['a'] [⟨TokenKind.Identifier, ['a']⟩] (by decide)⟩

/-- C7: the keyword-or-identifier rule fires only when the first
character has XID_Start; it then extends greedily through XID_Continue
characters and classifies the whole text by exact case-sensitive lookup
in the keyword set; and `"ifx"` scans as one Identifier token `"ifx"`,
not as the keyword `if` followed by `x`. -/
theorem C7_keyword_or_identifier_rule :
    (∀ (cs r : List Char) (t : Token),
      consume_keyword_or_identifier_token cs = Step.ok (some (t, r)) →
      ∃ first rest, cs = first :: rest ∧ is_xid_start first = true ∧
        t.text = first :: rest.takeWhile is_xid_continue ∧
        r = rest.dropWhile is_xid_continue ∧
        t.kind = keywordLookup t.text) ∧
    tokenize ("ifx".toList) = Step.ok [⟨TokenKind.Identifier, "ifx".toList⟩] := by
  constructor
  · intro cs r t h
    cases cs with
    | nil => simp [consume_keyword_or_identifier_token] at h
    | cons first rest =>
      by_cases hx : is_xid_start first
      · rw [consume_keyword_or_identifier_eq first rest hx] at h
        simp only [Step.ok.injEq, Option.some.injEq, Prod.mk.injEq] at h
        obtain ⟨h1, h2⟩ := h
        subst h1; subst h2
        exact ⟨first, rest, rfl, hx, rfl, rfl, rfl⟩
      · simp [consume_keyword_or_identifier_token, hx] at h
  · decide

/-- Witness for C7 at the concrete input `"if"` (a keyword hit). -/
theorem C7_keyword_or_identifier_rule_witness :
    (∃ first rest, "if".toList = first :: rest ∧ is_xid_start first = true ∧
      (Token.mk TokenKind.If "if".toList).text =
        first :: rest.takeWhile is_xid_continue ∧
      ([] : List Char) = rest.dropWhile is_xid_continue ∧
      (Token.mk TokenKind.If "if".toList).kind =
        keywordLookup (Token.mk TokenKind.If "if".toList).text) ∧
    tokenize ("ifx".toList) = Step.ok [⟨TokenKind.Identifier, "ifx".toList⟩] :=
  ⟨C7_keyword_or_identifier_rule.1 "if".toList [] ⟨TokenKind.If, "if".toList⟩
      (by decide),
   C7_keyword_or_identifier_rule.2⟩

/-- C10: a `_` at the start of the remaining input is never lexed as an
identifier or keyword (XID_Start excludes U+005F): it falls through every
rule and is emitted as a one-byte Illegal token with the rest of the
input untouched; a `_` after an identifier-start character is absorbed
into the identifier, e.g. `"a_b"` is one Identifier token. -/
theorem C10_leading_underscore_illegal :
    (∀ s : List Char, consume_token ('_' :: s) =
      Step.ok (some (⟨TokenKind.Illegal, ['_']⟩, s))) ∧
    tokenize ("a_b".toList) = Step.ok [⟨TokenKind.Identifier, "a_b".toList⟩] := by
  constructor
  · intro s
    cases s with
    | nil => decide
    | cons c s' =>
      have hws : whitespaceWidth ('_' :: c :: s') = 0 := by
        simp [whitespaceWidth, show is_whitespace '_' = false from by decide]
      have hcw : consume_whitespace ('_' :: c :: s') = .ok none := by
        simp [consume_whitespace, hws]
      have hsw : startsWithComment ('_' :: c :: s') = false := by
        simp [startsWithComment, List.take]
      have hcc : consume_comment ('_' :: c :: s') = .ok none := by
        simp [consume_comment, hsw]
      have htr : consume_trivia ('_' :: c :: s') = .ok none := by
        simp [consume_trivia, hcw, hcc]
      have h2k : two_char_kind '_' c = none := by
        unfold two_char_kind
        rw [if_neg (by decide), if_neg (by decide), if_neg (by decide),
          if_neg (by decide), if_neg (by decide), if_neg (by decide),
          if_neg (by decide), if_neg (by decide), if_neg (by decide),
          if_neg (by decide)]
      have htc : consume_two_chars_token '_' c ('_' :: c :: s') = .ok none := by
        simp [consume_two_chars_token, h2k]
      have hoc : consume_one_char_token '_' ('_' :: c :: s') = .ok none := by
        simp [consume_one_char_token, show one_char_kind '_' = none from by decide]
      have hkw : consume_keyword_or_identifier_token ('_' :: c :: s') = .ok none := by
        simp [consume_keyword_or_identifier_token,
          show is_xid_start '_' = false from by decide]
      have hsb : splitBytes 1 ('_' :: c :: s') = some (['_'], c :: s') := by
        show splitBytes (0 + 1) ('_' :: c :: s') = _
        simp only [splitBytes]
        rw [if_pos (by decide)]
      simp [consume_token, htr, htc, hoc, hkw, hsb]
  · decide

/-- C9: the diagnostics collector is never populated — a fresh scanner
starts with an empty error collection, no successful `consume_token`
step changes it, and the token output (including panics) is a function
of the remaining view alone, unaffected by the collector's contents. -/
theorem C9_errors_never_populated :
    (∀ s : List Char, (Lexer.new s).errors = []) ∧
    (∀ (lx : Lexer) (res : Option Token) (lx' : Lexer),
      Lexer.consume_token_state lx = Step.ok (res, lx') →
      lx'.errors = lx.errors) ∧
    (∀ (o1 o2 s : List Char) (e1 e2 : List SyntaxError),
      tokenPart (Lexer.consume_token_state ⟨o1, s, e1⟩) =
      tokenPart (Lexer.consume_token_state ⟨o2, s, e2⟩)) := by
  refine ⟨fun s => rfl, ?_, ?_⟩
  · intro lx res lx' h
    unfold Lexer.consume_token_state at h
    cases hct : consume_token lx.source_code with
    | panic => rw [hct] at h; simp at h
    | ok o =>
      rw [hct] at h
      cases o with
      | none =>
        simp only [Step.ok.injEq, Prod.mk.injEq] at h
        obtain ⟨h1, h2⟩ := h
        subst h2
        rfl
      | some p =>
        obtain ⟨t, rest⟩ := p
        simp only [Step.ok.injEq, Prod.mk.injEq] at h
        obtain ⟨h1, h2⟩ := h
        subst h2
        rfl
  · intro o1 o2 s e1 e2
    unfold Lexer.consume_token_state
    dsimp only []
    cases consume_token s with
    | panic => rfl
    | ok o =>
      cases o with
      | none => rfl
      | some p =>
        obtain ⟨t, rest⟩ := p
        rfl

/-- Witness for C9 at the concrete input `"a"`. -/
theorem C9_errors_never_populated_witness :
    (Lexer.mk ['a'] [] ([] : List SyntaxError)).errors =
      (Lexer.new ['a']).errors :=
  C9_errors_never_populated.2.1 (Lexer.new ['a'])
    (some ⟨TokenKind.Identifier, ['a']⟩) ⟨['a'], [], []⟩ (by decide)
